import Mathlib

/-! Shallow embedding of the Dishcovery backend streaming pipeline.

The embedded code is `backend/services/openai_service.py` (the NDJSON line
reassembly, record decoding and final-buffer flush inside
`analyze_menu_image_stream`, and the two-step `analyze_menu_image`) and the
`/api/analyze-menu` handler in `backend/main.py`.

Strings are modelled as `List Char`.  Python's `str.strip()` is modelled over
the whitespace characters relevant to this code (ASCII whitespace); the
streams this service handles are ASCII NDJSON.  Python's `json.loads` is
modelled by a fuelled recursive-descent reader of the standard JSON grammar
(Python additionally accepts the non-standard `NaN`/`Infinity` literals and
merges `\u` surrogate pairs; neither occurs in this pipeline's NDJSON
convention and both are outside the model).  Python dictionaries produced by
`json.loads` are modelled as association lists whose lookup (`dict.get`)
takes the last binding of a key, matching Python's duplicate-key behaviour.
-/

set_option maxRecDepth 10000

/-- Whitespace stripped by Python's `str.strip()` (ASCII part). -/
def pyIsSpace (c : Char) : Bool :=
  c == ' ' || c == '\t' || c == '\n' || c == '\r' || c == '\x0b' || c == '\x0c'

/-- Whitespace skipped by the JSON grammar (`json.loads`). -/
def jsonIsSpace (c : Char) : Bool :=
  c == ' ' || c == '\t' || c == '\n' || c == '\r'

/-- Left part of Python's `str.strip()`. -/
def trimLeft (s : List Char) : List Char := s.dropWhile pyIsSpace

/-- Right part of Python's `str.strip()`. -/
def trimRight (s : List Char) : List Char := (s.reverse.dropWhile pyIsSpace).reverse

/-- Python's `str.strip()`. -/
def pyStrip (s : List Char) : List Char := trimLeft (trimRight s)

/-- Python's `str.startswith` for a single-character pattern. -/
def startsWithChar (s : List Char) (c : Char) : Bool := s.head? == some c

/-- Python's `str.endswith` for a single-character pattern. -/
def endsWithChar (s : List Char) (c : Char) : Bool := s.getLast? == some c

/-- One step of the line splitter: prepend character `c` to an already split
buffer.  A newline starts a fresh (empty) complete line; any other character
is prepended to the first complete line if one exists, otherwise to the
trailing remainder. -/
def consLine (c : Char) : List (List Char) × List Char → List (List Char) × List Char
  | (ls, r) =>
    if c = '\n' then ([] :: ls, r)
    else
      match ls with
      | [] => ([], c :: r)
      | l :: ls2 => ((c :: l) :: ls2, r)

/-- The `while "\n" in buffer: line, buffer = buffer.split("\n", 1)` loop of
`analyze_menu_image_stream` (lines 436-437): split a buffer into the complete
lines before each newline and the trailing remainder without a newline. -/
def splitBuffer : List Char → List (List Char) × List Char
  | [] => ([], [])
  | c :: rest => consLine c (splitBuffer rest)

/-- Feeding a sequence of text fragments to the line reassembler: each
fragment is appended to the buffer (`buffer += text`, line 433) and the
buffer is split; the complete lines are stripped (line 438) as they are
produced.  Returns the stripped complete lines and the final buffer. -/
def feedFragments : List Char → List (List Char) → List (List Char) × List Char
  | buf, [] => ([], buf)
  | buf, f :: fs =>
    match splitBuffer (buf ++ f) with
    | (ls, buf2) =>
      match feedFragments buf2 fs with
      | (ls2, buf3) => (ls.map pyStrip ++ ls2, buf3)

/-- JSON values as produced by `json.loads`.  Number lexemes are kept as the
character sequence matched by the grammar (no numeric claim depends on their
value; only Python truthiness of a number is ever consulted, which is read
off the lexeme). -/
inductive Json where
  | null : Json
  | bool (b : Bool) : Json
  | num (lexeme : List Char) : Json
  | str (s : List Char) : Json
  | arr (elems : List Json) : Json
  | obj (members : List (List Char × Json)) : Json

/-- Skip JSON whitespace. -/
def skipWs (s : List Char) : List Char := s.dropWhile jsonIsSpace

/-- Single-character JSON string escapes. -/
def escChar (c : Char) : Option Char :=
  if c = '"' then some '"'
  else if c = '\\' then some '\\'
  else if c = '/' then some '/'
  else if c = 'b' then some '\x08'
  else if c = 'f' then some '\x0c'
  else if c = 'n' then some '\n'
  else if c = 'r' then some '\r'
  else if c = 't' then some '\t'
  else none

/-- Hexadecimal digit value, for `\u` escapes. -/
def hexVal (c : Char) : Option Nat :=
  if '0' ≤ c ∧ c ≤ '9' then some (c.toNat - '0'.toNat)
  else if 'a' ≤ c ∧ c ≤ 'f' then some (c.toNat - 'a'.toNat + 10)
  else if 'A' ≤ c ∧ c ≤ 'F' then some (c.toNat - 'A'.toNat + 10)
  else none

/-- Four hexadecimal digits of a `\u` escape. -/
def parseHex4 : List Char → Option (Nat × List Char)
  | a :: b :: c :: d :: rest =>
    match hexVal a with
    | none => none
    | some va =>
      match hexVal b with
      | none => none
      | some vb =>
        match hexVal c with
        | none => none
        | some vc =>
          match hexVal d with
          | none => none
          | some vd => some (va * 4096 + vb * 256 + vc * 16 + vd, rest)
  | [] => none
  | [_] => none
  | [_, _] => none
  | [_, _, _] => none

/-- Body of a JSON string, after the opening quote: characters up to the
closing quote, with escapes decoded and raw control characters rejected
(Python's strict mode). -/
def parseStringBody : Nat → List Char → Option (List Char × List Char)
  | 0, _ => none
  | _ + 1, [] => none
  | fuel + 1, c :: rest =>
    if c = '"' then some ([], rest)
    else if c = '\\' then
      match rest with
      | [] => none
      | e :: rest2 =>
        match escChar e with
        | some d =>
          match parseStringBody fuel rest2 with
          | some (s, r) => some (d :: s, r)
          | none => none
        | none =>
          if e = 'u' then
            match parseHex4 rest2 with
            | some (n, rest3) =>
              match parseStringBody fuel rest3 with
              | some (s, r) => some (Char.ofNat n :: s, r)
              | none => none
            | none => none
          else none
    else if c.toNat < 32 then none
    else
      match parseStringBody fuel rest with
      | some (s, r) => some (c :: s, r)
      | none => none

/-- Integer part of a JSON number: `0`, or a nonzero digit followed by
digits. -/
def parseIntPart : List Char → Option (List Char × List Char)
  | [] => none
  | c :: rest =>
    if c = '0' then some ([c], rest)
    else if c.isDigit then
      some (c :: rest.takeWhile Char.isDigit, rest.dropWhile Char.isDigit)
    else none

/-- Optional fraction part of a JSON number: a dot followed by at least one
digit, else nothing is consumed. -/
def parseFrac (cs : List Char) : List Char × List Char :=
  match cs with
  | c :: rest =>
    if c = '.' then
      if rest.takeWhile Char.isDigit = [] then ([], cs)
      else ('.' :: rest.takeWhile Char.isDigit, rest.dropWhile Char.isDigit)
    else ([], cs)
  | [] => ([], cs)

/-- Optional exponent part of a JSON number: `e`/`E`, an optional sign and at
least one digit, else nothing is consumed. -/
def parseExp (cs : List Char) : List Char × List Char :=
  match cs with
  | e :: s :: rest =>
    if e = 'e' ∨ e = 'E' then
      if s = '+' ∨ s = '-' then
        if rest.takeWhile Char.isDigit = [] then ([], cs)
        else (e :: s :: rest.takeWhile Char.isDigit, rest.dropWhile Char.isDigit)
      else
        if (s :: rest).takeWhile Char.isDigit = [] then ([], cs)
        else (e :: (s :: rest).takeWhile Char.isDigit,
              (s :: rest).dropWhile Char.isDigit)
    else ([], cs)
  | _ => ([], cs)

/-- A JSON number: optional minus, integer part, optional fraction and
exponent.  Returns the matched lexeme and the rest of the input. -/
def parseNumber (cs : List Char) : Option (List Char × List Char) :=
  match cs with
  | [] => none
  | c :: rest =>
    if c = '-' then
      match parseIntPart rest with
      | none => none
      | some (ip, r1) =>
        match parseFrac r1 with
        | (fp, r2) =>
          match parseExp r2 with
          | (ep, r3) => some ('-' :: (ip ++ fp ++ ep), r3)
    else
      match parseIntPart (c :: rest) with
      | none => none
      | some (ip, r1) =>
        match parseFrac r1 with
        | (fp, r2) =>
          match parseExp r2 with
          | (ep, r3) => some (ip ++ fp ++ ep, r3)

mutual

/-- A JSON value.  The input starts at the value's first character (no
leading whitespace); dispatch is on that character. -/
def parseValue : Nat → List Char → Option (Json × List Char)
  | 0, _ => none
  | _ + 1, [] => none
  | fuel + 1, c :: rest =>
    if c = '\x7b' then
      match parseMembers fuel (skipWs rest) with
      | some (ms, r) => some (Json.obj ms, r)
      | none => none
    else if c = '[' then
      match parseElems fuel (skipWs rest) with
      | some (vs, r) => some (Json.arr vs, r)
      | none => none
    else if c = '"' then
      match parseStringBody fuel rest with
      | some (s, r) => some (Json.str s, r)
      | none => none
    else if c = 'n' then
      if rest.take 3 = ['u', 'l', 'l'] then some (Json.null, rest.drop 3) else none
    else if c = 't' then
      if rest.take 3 = ['r', 'u', 'e'] then some (Json.bool true, rest.drop 3)
      else none
    else if c = 'f' then
      if rest.take 4 = ['a', 'l', 's', 'e'] then some (Json.bool false, rest.drop 4)
      else none
    else if c = '-' ∨ c.isDigit then
      match parseNumber (c :: rest) with
      | some (lx, r) => some (Json.num lx, r)
      | none => none
    else none

/-- Elements of a JSON array, after `[` and whitespace: either an immediate
`]` or a first value followed by the tail. -/
def parseElems : Nat → List Char → Option (List Json × List Char)
  | 0, _ => none
  | fuel + 1, cs =>
    match cs with
    | ']' :: rest => some ([], rest)
    | _ =>
      match parseValue fuel cs with
      | some (v, r1) =>
        match parseElemsTail fuel r1 with
        | some (vs, r2) => some (v :: vs, r2)
        | none => none
      | none => none

/-- After one array element: whitespace, then `,` and another element, or the
closing `]`. -/
def parseElemsTail : Nat → List Char → Option (List Json × List Char)
  | 0, _ => none
  | fuel + 1, cs =>
    match skipWs cs with
    | ',' :: r =>
      match parseValue fuel (skipWs r) with
      | some (v, r1) =>
        match parseElemsTail fuel r1 with
        | some (vs, r2) => some (v :: vs, r2)
        | none => none
      | none => none
    | ']' :: r => some ([], r)
    | _ => none

/-- Members of a JSON object, after the opening brace and whitespace: either
an immediate closing brace or a first `"key": value` member followed by the
tail. -/
def parseMembers : Nat → List Char → Option (List (List Char × Json) × List Char)
  | 0, _ => none
  | fuel + 1, cs =>
    match cs with
    | '\x7d' :: rest => some ([], rest)
    | '"' :: rest =>
      match parseStringBody fuel rest with
      | some (k, r1) =>
        match skipWs r1 with
        | ':' :: r2 =>
          match parseValue fuel (skipWs r2) with
          | some (v, r3) =>
            match parseMembersTail fuel r3 with
            | some (ms, r4) => some ((k, v) :: ms, r4)
            | none => none
          | none => none
        | _ => none
      | none => none
    | _ => none

/-- After one object member: whitespace, then `,` and another member, or the
closing brace. -/
def parseMembersTail : Nat → List Char → Option (List (List Char × Json) × List Char)
  | 0, _ => none
  | fuel + 1, cs =>
    match skipWs cs with
    | ',' :: r =>
      match skipWs r with
      | '"' :: rest =>
        match parseStringBody fuel rest with
        | some (k, r1) =>
          match skipWs r1 with
          | ':' :: r2 =>
            match parseValue fuel (skipWs r2) with
            | some (v, r3) =>
              match parseMembersTail fuel r3 with
              | some (ms, r4) => some ((k, v) :: ms, r4)
              | none => none
            | none => none
          | _ => none
        | none => none
      | _ => none
    | '\x7d' :: r => some ([], r)
    | _ => none

end

/-- Python's `json.loads`: skip leading whitespace, read one value, require
only whitespace to remain.  The fuel `s.length + 1` is sufficient because
every nested parse call consumes at least one input character before
recursing. -/
def json_loads (s : List Char) : Option Json :=
  match parseValue (s.length + 1) (skipWs s) with
  | some (v, rest) => if skipWs rest = [] then some v else none
  | none => none

/-- A decoded Python dictionary with string keys (the result of a successful
`json.loads` of an object, and also the shape of the dish dictionaries the
stream builds). -/
abbrev Obj := List (List Char × Json)

/-- Python `dict.get(key)`: the value of the last binding of `key`, if any
(later duplicate keys in a JSON object overwrite earlier ones). -/
def pyGet (kvs : Obj) (k : List Char) : Option Json :=
  match kvs.reverse.find? (fun p => p.1 == k) with
  | some p => some p.2
  | none => none

/-- Python truthiness of a JSON number, read off its lexeme: nonzero iff some
mantissa digit (before any exponent marker) is nonzero. -/
def numTruthy (lexeme : List Char) : Bool :=
  (lexeme.takeWhile (fun c => !(c == 'e' || c == 'E'))).any
    (fun c => '1' ≤ c && c ≤ '9')

/-- Python truthiness of a decoded JSON value (`None` is falsy, numbers are
truthy iff nonzero, strings/lists/dicts are truthy iff nonempty). -/
def truthy : Json → Bool
  | Json.null => false
  | Json.bool b => b
  | Json.num lx => numTruthy lx
  | Json.str s => !s.isEmpty
  | Json.arr xs => !xs.isEmpty
  | Json.obj ms => !ms.isEmpty

/-- Python `x or ""` on an optional value (`dict.get` result): the value if
present and truthy, else the empty string. -/
def pyOrEmptyStr (v : Option Json) : Json :=
  match v with
  | some x => if truthy x then x else Json.str []
  | none => Json.str []

/-- Python `x or None` on an optional value: the value if present and truthy,
else `None`. -/
def pyOrNone (v : Option Json) : Json :=
  match v with
  | some x => if truthy x then x else Json.null
  | none => Json.null

/-- ASCII `str.lower` on one character. -/
def pyLowerChar (c : Char) : Char :=
  if 'A' ≤ c ∧ c ≤ 'Z' then Char.ofNat (c.toNat + 32) else c

/-- Python `value.lower()`: defined on strings, raises `AttributeError`
(modelled as `Except.error`) on any other value. -/
def pyLower : Json → Except Unit (List Char)
  | Json.str s => Except.ok (s.map pyLowerChar)
  | _ => Except.error ()

/-- Python `str.replace(" ", "_")`. -/
def pyReplaceSpace (s : List Char) : List Char :=
  s.map (fun c => if c = ' ' then '_' else c)

def kName : List Char := "name".toList

def kTranslation : List Char := "translation".toList

def kCategory : List Char := "category".toList

def kCategoryTranslation : List Char := "category_translation".toList

def kMenuDescription : List Char := "menu_description".toList

def kTranslationDescription : List Char := "translation_description".toList

def kNameEn : List Char := "name_en".toList

def kNameZh : List Char := "name_zh".toList

def kSection : List Char := "section".toList

def kDescriptionEn : List Char := "description_en".toList

def kDescriptionZh : List Char := "description_zh".toList

/-- The canonical key sequence of an emitted dish record (source lines
448-455). -/
def dishKeys : List (List Char) :=
  [kName, kTranslation, kCategory, kCategoryTranslation,
   kMenuDescription, kTranslationDescription]

/-- The dish dictionary built from a decoded line (source lines 448-455 and,
identically, 467-474): `data.get("name_en", "")`, `data.get("name_zh", "")`,
`(data.get("section") or "").lower().replace(" ", "_")`,
`data.get("section", "")`, `data.get("description_en") or None`,
`data.get("description_zh") or None`.  Evaluating `.lower()` on a truthy
non-string `section` value raises `AttributeError`, modelled as
`Except.error`. -/
def buildDish (data : Obj) : Except Unit Obj :=
  match pyLower (pyOrEmptyStr (pyGet data kSection)) with
  | Except.error e => Except.error e
  | Except.ok sec =>
    Except.ok
      [(kName, (pyGet data kNameEn).getD (Json.str [])),
       (kTranslation, (pyGet data kNameZh).getD (Json.str [])),
       (kCategory, Json.str (pyReplaceSpace sec)),
       (kCategoryTranslation, (pyGet data kSection).getD (Json.str [])),
       (kMenuDescription, pyOrNone (pyGet data kDescriptionEn)),
       (kTranslationDescription, pyOrNone (pyGet data kDescriptionZh))]

/-- Whether the dish construction succeeds: the `section` value, after
`or ""`, is a string (so `.lower()` does not raise). -/
def sectionOk (data : Obj) : Bool :=
  match pyOrEmptyStr (pyGet data kSection) with
  | Json.str _ => true
  | _ => false

/-- Decoding of one candidate line (source lines 438-455): strip it, reject
it without a parse when it is empty or does not start with an opening brace
or does not end with a closing brace, reject it silently when `json.loads`
fails, and otherwise build the dish dictionary (which raises on a truthy
non-string `section`). -/
def decodeLine (line : List Char) : Except Unit (Option Obj) :=
  let l := pyStrip line
  if l = [] then Except.ok none
  else if startsWithChar l '\x7b' = false then Except.ok none
  else if endsWithChar l '\x7d' = false then Except.ok none
  else
    match json_loads l with
    | none => Except.ok none
    | some (Json.obj kvs) =>
      match buildDish kvs with
      | Except.ok d => Except.ok (some d)
      | Except.error e => Except.error e
    | some _ => Except.error ()

/-- Processing of the complete lines split off one buffer: each line is
decoded in order; a decoding that raises aborts the loop (the dishes already
yielded stand), a rejected line is skipped, a decoded dish is emitted.
Returns the dishes emitted and whether an exception escaped. -/
def processLines : List (List Char) → List Obj × Bool
  | [] => ([], false)
  | l :: ls =>
    match decodeLine l with
    | Except.error _ => ([], true)
    | Except.ok none => processLines ls
    | Except.ok (some d) =>
      match processLines ls with
      | (ds, e) => (d :: ds, e)

/-- The end-of-stream flush (source lines 463-479): if the stripped residual
buffer starts with an opening brace and ends with a closing brace, parse it
and build one final dish; any failure inside (parse error, or the
`AttributeError` from a truthy non-string `section`) is swallowed by the bare
`except: pass`, producing nothing. -/
def flushBuffer (buffer : List Char) : Option Obj :=
  let b := pyStrip buffer
  if startsWithChar b '\x7b' = true ∧ endsWithChar b '\x7d' = true then
    match json_loads b with
    | some (Json.obj kvs) =>
      match buildDish kvs with
      | Except.ok d => some d
      | Except.error _ => none
    | _ => none
  else none

/-- The chunk-consumption loop of `analyze_menu_image_stream` (lines
394-479), with the background thread and queue of the Stream Bridge
abstracted to their observable behaviour: the produced text chunks arrive in
order, followed either by the completion sentinel (`exnEnd = false`) or by a
captured upstream exception (`exnEnd = true`) which is re-raised to the
consumer.  Each chunk's text is appended to the buffer, complete lines are
split off and decoded (an `AttributeError` escaping the decode aborts the
generator); at a clean end the residual buffer is flushed.  Returns the
dishes yielded and whether the generator raised. -/
def runStream : List Char → List (List Char) → Bool → List Obj × Bool
  | buffer, [], exnEnd =>
    if exnEnd then ([], true)
    else
      match flushBuffer buffer with
      | some d => ([d], false)
      | none => ([], false)
  | buffer, chunk :: chunks, exnEnd =>
    match splitBuffer (buffer ++ chunk) with
    | (lines, buf2) =>
      match processLines lines with
      | (ds, raised) =>
        if raised then (ds, true)
        else
          match runStream buf2 chunks exnEnd with
          | (ds2, raised2) => (ds ++ ds2, raised2)

/-- Events of the `/api/analyze-menu` SSE stream: a dish record frame, an
error frame, or the completion frame. -/
inductive Event where
  | record (d : Obj) : Event
  | errorEv : Event
  | doneEv : Event

/-- Terminal events of the stream. -/
def isTerminal : Event → Bool
  | Event.record _ => false
  | Event.errorEv => true
  | Event.doneEv => true

/-- The `generate()` coroutine of the `/api/analyze-menu` handler
(`backend/main.py` lines 55-85): reject bodies over 10 MiB with a single
error frame before any upstream work; otherwise forward every dish of the
stream as a record frame, then a done frame on clean completion, or a single
error frame if the stream raised. -/
def analyze_menu (size : Nat) (chunks : List (List Char)) (exnEnd : Bool) :
    List Event :=
  if size > 10 * 1024 * 1024 then [Event.errorEv]
  else
    match runStream [] chunks exnEnd with
    | (ds, raised) =>
      ds.map Event.record ++ [if raised then Event.errorEv else Event.doneEv]

/-- Model of `re.search(r"\x7b.*\x7d", s, re.DOTALL)` returning the matched
text: the slice from the first opening brace through the last closing brace
after it, when such a pair exists. -/
def braceSlice (s : List Char) : Option (List Char) :=
  match s.dropWhile (fun c => !(c == '\x7b')) with
  | [] => none
  | u =>
    match u.reverse.dropWhile (fun c => !(c == '\x7d')) with
    | [] => none
    | w => if w.length ≥ 2 then some w.reverse else none

/-- Python `len()` applied to a decoded JSON value: defined on strings,
lists and dicts, raises `TypeError` (modelled as `Except.error`) on the
rest. -/
def pyLenOk : Json → Bool
  | Json.str _ => true
  | Json.arr _ => true
  | Json.obj _ => true
  | _ => false

/-- The two-step `analyze_menu_image` (source lines 143-226), with the two
model calls abstracted by their returned message contents (`none` models a
response with no choices or a `None` content).  Step 1: an absent or empty
content returns the empty list (lines 143-145); otherwise its stripped text
becomes the step-2 prompt input and step 2 runs.  Step 2: absent or empty
content returns the empty list; otherwise the stripped content, cut down to
its outermost brace slice when one exists (lines 208-210), is parsed; a
parse failure or a non-dict result or a missing `"dishes"` key returns the
empty list; a `"dishes"` value on which `len` is defined is returned, any
other `"dishes"` value raises (`TypeError` from `len`, re-wrapped by the
outer handler).  The second component records whether the step-2 call was
made. -/
def analyze_menu_image (step1 : Option (List Char)) (step2 : Option (List Char)) :
    Except Unit Json × Bool :=
  match step1 with
  | none => (Except.ok (Json.arr []), false)
  | some c1 =>
    if c1 = [] then (Except.ok (Json.arr []), false)
    else
      match step2 with
      | none => (Except.ok (Json.arr []), true)
      | some c2 =>
        if c2 = [] then (Except.ok (Json.arr []), true)
        else
          let content := pyStrip c2
          let content2 := (braceSlice content).getD content
          match json_loads content2 with
          | none => (Except.ok (Json.arr []), true)
          | some (Json.obj kvs) =>
            match pyGet kvs ("dishes".toList) with
            | some d =>
              if pyLenOk d then (Except.ok d, true) else (Except.error (), true)
            | none => (Except.ok (Json.arr []), true)
          | some _ => (Except.ok (Json.arr []), true)

def fragA1 : List Char := "\x7b\"section\":\"Pizzas\",".toList

def fragA2 : List Char := "\"name_en\":\"Margherit".toList

def fragA3 : List Char := "a Pizza\"\x7d\n\x7b\"section\":\"Sal".toList

def fragA4 : List Char := "ads\",\"name_en\":\"Caesar Salad\"\x7d\n".toList

def dishMargherita : Obj :=
  [(kName, Json.str ("Margherita Pizza".toList)),
   (kTranslation, Json.str []),
   (kCategory, Json.str ("pizzas".toList)),
   (kCategoryTranslation, Json.str ("Pizzas".toList)),
   (kMenuDescription, Json.null),
   (kTranslationDescription, Json.null)]

def dishCaesar : Obj :=
  [(kName, Json.str ("Caesar Salad".toList)),
   (kTranslation, Json.str []),
   (kCategory, Json.str ("salads".toList)),
   (kCategoryTranslation, Json.str ("Salads".toList)),
   (kMenuDescription, Json.null),
   (kTranslationDescription, Json.null)]

def lineSectionArr : List Char := "\x7b\"section\":[1]\x7d".toList

def fragB : List Char := "\x7b\"name_en\":\"Caesar Salad\"\x7d\n".toList

def dishCaesarOnly : Obj :=
  [(kName, Json.str ("Caesar Salad".toList)),
   (kTranslation, Json.str []),
   (kCategory, Json.str []),
   (kCategoryTranslation, Json.str []),
   (kMenuDescription, Json.null),
   (kTranslationDescription, Json.null)]

def lineEmptyDescs : List Char :=
  "\x7b\"description_en\":\"\",\"description_zh\":\"\"\x7d".toList

def kvsEmptyDescs : Obj :=
  [(kDescriptionEn, Json.str []), (kDescriptionZh, Json.str [])]

def dishEmptyDescs : Obj :=
  [(kName, Json.str []),
   (kTranslation, Json.str []),
   (kCategory, Json.str []),
   (kCategoryTranslation, Json.str []),
   (kMenuDescription, Json.null),
   (kTranslationDescription, Json.null)]

theorem splitBuffer_append (a b : List Char) :
    splitBuffer (a ++ b) =
      ((splitBuffer a).1 ++ (splitBuffer ((splitBuffer a).2 ++ b)).1,
       (splitBuffer ((splitBuffer a).2 ++ b)).2) := by
  induction a with
  | nil => simp [splitBuffer]
  | cons c a ih =>
    show consLine c (splitBuffer (a ++ b)) = _
    rw [ih]
    rcases hq : splitBuffer a with ⟨ls1, r1⟩
    by_cases hc : c = '\n'
    · simp [splitBuffer, consLine, hc, hq]
    · cases ls1 with
      | nil => simp [splitBuffer, consLine, hc, hq]
      | cons q qs => simp [splitBuffer, consLine, hc, hq]

theorem splitBuffer_no_newline (s : List Char) (h : '\n' ∉ s) :
    splitBuffer s = ([], s) := by
  induction s with
  | nil => rfl
  | cons c rest ih =>
    have hc : ¬ c = '\n' := fun e => h (by rw [e]; exact List.mem_cons_self _ _)
    have hr : '\n' ∉ rest := fun m => h (List.mem_cons_of_mem _ m)
    show consLine c (splitBuffer rest) = _
    rw [ih hr]
    simp [consLine, hc]

theorem splitBuffer_snd_no_newline (s : List Char) : '\n' ∉ (splitBuffer s).2 := by
  induction s with
  | nil => simp [splitBuffer]
  | cons c rest ih =>
    show '\n' ∉ (consLine c (splitBuffer rest)).2
    rcases hq : splitBuffer rest with ⟨ls, r⟩
    rw [hq] at ih
    by_cases hc : c = '\n'
    · simpa [consLine, hc] using ih
    · cases ls with
      | nil =>
        simp only [consLine, hc, if_false]
        intro hmem
        rcases List.mem_cons.mp hmem with h1 | h2
        · exact hc h1.symm
        · exact ih h2
      | cons l ls2 => simpa [consLine, hc] using ih

theorem feedFragments_eq (frags : List (List Char)) : ∀ buf, '\n' ∉ buf →
    feedFragments buf frags =
      ((splitBuffer (buf ++ frags.flatten)).1.map pyStrip,
       (splitBuffer (buf ++ frags.flatten)).2) := by
  induction frags with
  | nil =>
    intro buf h
    simp [feedFragments, splitBuffer_no_newline buf h]
  | cons f fs ih =>
    intro buf h
    rcases hp : splitBuffer (buf ++ f) with ⟨ls, buf2⟩
    have h2 : '\n' ∉ buf2 := by
      have := splitBuffer_snd_no_newline (buf ++ f)
      rw [hp] at this
      exact this
    have happ := splitBuffer_append (buf ++ f) fs.flatten
    rw [hp] at happ
    simp only [feedFragments, hp, ih buf2 h2]
    simp [List.flatten, ← List.append_assoc, happ]

/-- C1: fragmentation-invariance of the line reassembler.  For every finite
sequence of text fragments, the ordered sequence of complete stripped lines
(and the final buffered remainder) produced by feeding the fragments one at a
time equals the one produced by feeding their concatenation as a single
fragment: the emitted lines depend only on the concatenated text, never on
the fragment boundaries. -/
theorem line_reassembler_fragmentation_invariance (frags : List (List Char)) :
    feedFragments [] frags = feedFragments [] [frags.flatten] := by
  have h1 := feedFragments_eq frags [] (by simp)
  have h2 := feedFragments_eq [frags.flatten] [] (by simp)
  rw [h1, h2]
  simp [List.flatten]

theorem close_of_suffix {cs sub r : List Char} (hs : sub <:+ cs)
    (h : ∃ t, sub = t ++ '\x7d' :: r) : ∃ t, cs = t ++ '\x7d' :: r := by
  obtain ⟨u, hu⟩ := hs
  obtain ⟨t, ht⟩ := h
  exact ⟨u ++ t, by rw [← hu, ht, List.append_assoc]⟩

theorem skipWs_suffix (s : List Char) : skipWs s <:+ s :=
  List.dropWhile_suffix jsonIsSpace

theorem parseIntPart_suffix (cs ip r : List Char)
    (h : parseIntPart cs = some (ip, r)) : r <:+ cs := by
  match cs with
  | [] => simp [parseIntPart] at h
  | c :: rest =>
    simp only [parseIntPart] at h
    by_cases h0 : c = '0'
    · simp only [h0, if_true, Option.some.injEq, Prod.mk.injEq] at h
      rw [← h.2]
      exact List.suffix_cons c rest
    · by_cases hd : c.isDigit
      · simp only [h0, hd, if_false, if_true, Option.some.injEq, Prod.mk.injEq] at h
        rw [← h.2]
        exact (List.dropWhile_suffix _).trans (List.suffix_cons c rest)
      · simp [h0, hd] at h

theorem parseFrac_suffix (cs : List Char) : (parseFrac cs).2 <:+ cs := by
  match cs with
  | [] => exact List.suffix_refl _
  | c :: rest =>
    by_cases hc : c = '.'
    · by_cases he : rest.takeWhile Char.isDigit = []
      · simp [parseFrac, hc, he]
      · simp only [parseFrac, hc, if_true, he, if_false]
        exact (List.dropWhile_suffix _).trans (List.suffix_cons _ rest)
    · simp [parseFrac, hc]

theorem parseExp_suffix (cs : List Char) : (parseExp cs).2 <:+ cs := by
  match cs with
  | [] => exact List.suffix_refl _
  | [e] => exact List.suffix_refl _
  | e :: s :: rest =>
    show (parseExp (e :: s :: rest)).2 <:+ e :: s :: rest
    simp only [parseExp]
    by_cases h1 : e = 'e' ∨ e = 'E'
    · simp only [h1, if_true]
      by_cases h2 : s = '+' ∨ s = '-'
      · simp only [h2, if_true]
        by_cases h3 : rest.takeWhile Char.isDigit = []
        · simp [h3]
        · simp only [h3, if_false]
          exact ((List.dropWhile_suffix _).trans (List.suffix_cons _ _)).trans
            (List.suffix_cons _ _)
      · simp only [h2, if_false]
        by_cases h3 : (s :: rest).takeWhile Char.isDigit = []
        · simp [h3]
        · simp only [h3, if_false]
          exact (List.dropWhile_suffix _).trans (List.suffix_cons _ _)
    · simp [h1]

theorem parseNumber_suffix (cs lx r : List Char)
    (h : parseNumber cs = some (lx, r)) : r <:+ cs := by
  match cs with
  | [] => simp [parseNumber] at h
  | c :: rest =>
    simp only [parseNumber] at h
    by_cases hm : c = '-'
    · simp only [hm, if_true] at h
      match hip : parseIntPart rest with
      | none => rw [hip] at h; simp at h
      | some (ip, r1) =>
        rw [hip] at h
        simp only [Option.some.injEq, Prod.mk.injEq] at h
        have h1 : r1 <:+ rest := parseIntPart_suffix rest ip r1 hip
        have h2 : (parseFrac r1).2 <:+ r1 := parseFrac_suffix r1
        have h3 : (parseExp (parseFrac r1).2).2 <:+ (parseFrac r1).2 :=
          parseExp_suffix (parseFrac r1).2
        rw [← h.2]
        exact (((h3.trans h2).trans h1).trans (List.suffix_cons _ _)).trans
          (by rw [hm])
    · simp only [hm, if_false] at h
      match hip : parseIntPart (c :: rest) with
      | none => rw [hip] at h; simp at h
      | some (ip, r1) =>
        rw [hip] at h
        simp only [Option.some.injEq, Prod.mk.injEq] at h
        have h1 : r1 <:+ c :: rest := parseIntPart_suffix (c :: rest) ip r1 hip
        have h2 : (parseFrac r1).2 <:+ r1 := parseFrac_suffix r1
        have h3 : (parseExp (parseFrac r1).2).2 <:+ (parseFrac r1).2 :=
          parseExp_suffix (parseFrac r1).2
        rw [← h.2]
        exact (h3.trans h2).trans h1

theorem parseHex4_suffix (cs : List Char) (n : Nat) (r : List Char)
    (h : parseHex4 cs = some (n, r)) : r <:+ cs := by
  match cs with
  | [] => simp [parseHex4] at h
  | [a] => simp [parseHex4] at h
  | [a, b] => simp [parseHex4] at h
  | [a, b, c] => simp [parseHex4] at h
  | a :: b :: c :: d :: rest =>
    simp only [parseHex4] at h
    match h1 : hexVal a with
    | none => rw [h1] at h; simp at h
    | some va =>
      rw [h1] at h
      match h2 : hexVal b with
      | none => rw [h2] at h; simp at h
      | some vb =>
        rw [h2] at h
        match h3 : hexVal c with
        | none => rw [h3] at h; simp at h
        | some vc =>
          rw [h3] at h
          match h4 : hexVal d with
          | none => rw [h4] at h; simp at h
          | some vd =>
            rw [h4] at h
            simp only [Option.some.injEq, Prod.mk.injEq] at h
            rw [← h.2]
            exact (((List.suffix_cons d rest).trans
              (List.suffix_cons c (d :: rest))).trans
              (List.suffix_cons b (c :: d :: rest))).trans
              (List.suffix_cons a (b :: c :: d :: rest))

theorem parseStringBody_suffix : ∀ (fuel : Nat) (cs s r : List Char),
    parseStringBody fuel cs = some (s, r) → r <:+ cs := by
  intro fuel
  induction fuel with
  | zero => intro cs s r h; simp [parseStringBody] at h
  | succ fuel ih =>
    intro cs s r h
    match cs with
    | [] => simp [parseStringBody] at h
    | c :: rest =>
      simp only [parseStringBody] at h
      by_cases h1 : c = '"'
      · simp only [h1, if_true, Option.some.injEq, Prod.mk.injEq] at h
        rw [← h.2]
        exact List.suffix_cons c rest
      · simp only [h1, if_false] at h
        by_cases h2 : c = '\\'
        · simp only [h2, if_true] at h
          match rest with
          | [] => simp at h
          | e :: rest2 =>
            simp only [] at h
            match hesc : escChar e with
            | some d =>
              rw [hesc] at h
              match hrec : parseStringBody fuel rest2 with
              | none => rw [hrec] at h; simp at h
              | some (s2, r2) =>
                rw [hrec] at h
                simp only [Option.some.injEq, Prod.mk.injEq] at h
                rw [← h.2]
                exact ((ih rest2 s2 r2 hrec).trans (List.suffix_cons _ _)).trans
                  (List.suffix_cons _ _)
            | none =>
              rw [hesc] at h
              by_cases hu : e = 'u'
              · simp only [hu, if_true] at h
                match hhex : parseHex4 rest2 with
                | none => rw [hhex] at h; simp at h
                | some (n, rest3) =>
                  rw [hhex] at h
                  simp only [] at h
                  match hrec : parseStringBody fuel rest3 with
                  | none => rw [hrec] at h; simp at h
                  | some (s2, r2) =>
                    rw [hrec] at h
                    simp only [Option.some.injEq, Prod.mk.injEq] at h
                    rw [← h.2]
                    refine ((ih rest3 s2 r2 hrec).trans
                      (parseHex4_suffix rest2 n rest3 hhex)).trans ?_
                    exact (List.suffix_cons e rest2).trans
                      (List.suffix_cons c (e :: rest2))
              · simp [hu] at h
        · simp only [h2, if_false] at h
          by_cases h3 : c.toNat < 32
          · simp [h3] at h
          · simp only [h3, if_false] at h
            match hrec : parseStringBody fuel rest with
            | none => rw [hrec] at h; simp at h
            | some (s2, r2) =>
              rw [hrec] at h
              simp only [Option.some.injEq, Prod.mk.injEq] at h
              rw [← h.2]
              exact (ih rest s2 r2 hrec).trans (List.suffix_cons c rest)

theorem parse_suffix (fuel : Nat) :
    (∀ cs v r, parseValue fuel cs = some (v, r) → r <:+ cs) ∧
    (∀ cs vs r, parseElems fuel cs = some (vs, r) → r <:+ cs) ∧
    (∀ cs vs r, parseElemsTail fuel cs = some (vs, r) → r <:+ cs) ∧
    (∀ cs ms r, parseMembers fuel cs = some (ms, r) → r <:+ cs) ∧
    (∀ cs ms r, parseMembersTail fuel cs = some (ms, r) → r <:+ cs) := by
  induction fuel with
  | zero =>
    refine ⟨?_, ?_, ?_, ?_, ?_⟩ <;> intro cs x r h <;>
      simp [parseValue, parseElems, parseElemsTail, parseMembers,
        parseMembersTail] at h
  | succ fuel ih =>
    obtain ⟨ihV, ihE, ihET, ihM, ihMT⟩ := ih
    refine ⟨?_, ?_, ?_, ?_, ?_⟩
    · -- parseValue
      intro cs v r h
      match cs with
      | [] => simp [parseValue] at h
      | c :: rest =>
        simp only [parseValue] at h
        by_cases hc1 : c = '\x7b'
        · simp only [hc1, if_true] at h
          match hm : parseMembers fuel (skipWs rest) with
          | none => rw [hm] at h; simp at h
          | some (ms, r0) =>
            rw [hm] at h
            simp only [Option.some.injEq, Prod.mk.injEq] at h
            rw [← h.2]
            exact ((ihM _ _ _ hm).trans (skipWs_suffix rest)).trans
              (List.suffix_cons c rest)
        · simp only [hc1, if_false] at h
          by_cases hc2 : c = '['
          · simp only [hc2, if_true] at h
            match hm : parseElems fuel (skipWs rest) with
            | none => rw [hm] at h; simp at h
            | some (vs, r0) =>
              rw [hm] at h
              simp only [Option.some.injEq, Prod.mk.injEq] at h
              rw [← h.2]
              exact ((ihE _ _ _ hm).trans (skipWs_suffix rest)).trans
                (List.suffix_cons c rest)
          · simp only [hc2, if_false] at h
            by_cases hc3 : c = '"'
            · simp only [hc3, if_true] at h
              match hm : parseStringBody fuel rest with
              | none => rw [hm] at h; simp at h
              | some (s0, r0) =>
                rw [hm] at h
                simp only [Option.some.injEq, Prod.mk.injEq] at h
                rw [← h.2]
                exact (parseStringBody_suffix fuel rest s0 r0 hm).trans
                  (List.suffix_cons c rest)
            · simp only [hc3, if_false] at h
              by_cases hc4 : c = 'n'
              · simp only [hc4, if_true] at h
                by_cases ht : rest.take 3 = ['u', 'l', 'l']
                · simp only [ht, if_true, Option.some.injEq, Prod.mk.injEq] at h
                  rw [← h.2]
                  exact (List.drop_suffix 3 rest).trans (List.suffix_cons c rest)
                · simp [ht] at h
              · simp only [hc4, if_false] at h
                by_cases hc5 : c = 't'
                · simp only [hc5, if_true] at h
                  by_cases ht : rest.take 3 = ['r', 'u', 'e']
                  · simp only [ht, if_true, Option.some.injEq, Prod.mk.injEq] at h
                    rw [← h.2]
                    exact (List.drop_suffix 3 rest).trans (List.suffix_cons c rest)
                  · simp [ht] at h
                · simp only [hc5, if_false] at h
                  by_cases hc6 : c = 'f'
                  · simp only [hc6, if_true] at h
                    by_cases ht : rest.take 4 = ['a', 'l', 's', 'e']
                    · simp only [ht, if_true, Option.some.injEq,
                        Prod.mk.injEq] at h
                      rw [← h.2]
                      exact (List.drop_suffix 4 rest).trans
                        (List.suffix_cons c rest)
                    · simp [ht] at h
                  · simp only [hc6, if_false] at h
                    by_cases hc7 : c = '-' ∨ c.isDigit
                    · simp only [hc7, if_true] at h
                      match hm : parseNumber (c :: rest) with
                      | none => rw [hm] at h; simp at h
                      | some (lx, r0) =>
                        rw [hm] at h
                        simp only [Option.some.injEq, Prod.mk.injEq] at h
                        rw [← h.2]
                        exact parseNumber_suffix (c :: rest) lx r0 hm
                    · simp [hc7] at h
    · -- parseElems
      intro cs vs r h
      simp only [parseElems] at h
      split at h
      · next rest =>
        simp only [Option.some.injEq, Prod.mk.injEq] at h
        rw [← h.2]
        exact List.suffix_cons ']' rest
      · match hv : parseValue fuel cs with
        | none => rw [hv] at h; simp at h
        | some (v, r1) =>
          rw [hv] at h
          simp only [] at h
          match htl : parseElemsTail fuel r1 with
          | none => rw [htl] at h; simp at h
          | some (vs2, r2) =>
            rw [htl] at h
            simp only [Option.some.injEq, Prod.mk.injEq] at h
            rw [← h.2]
            exact (ihET _ _ _ htl).trans (ihV _ _ _ hv)
    · -- parseElemsTail
      intro cs vs r h
      simp only [parseElemsTail] at h
      split at h
      · next r1 heq =>
        match hv : parseValue fuel (skipWs r1) with
        | none => rw [hv] at h; simp at h
        | some (v, r2) =>
          rw [hv] at h
          simp only [] at h
          match htl : parseElemsTail fuel r2 with
          | none => rw [htl] at h; simp at h
          | some (vs2, r3) =>
            rw [htl] at h
            simp only [Option.some.injEq, Prod.mk.injEq] at h
            rw [← h.2]
            have h1 : r1 <:+ skipWs cs := by
              rw [heq]; exact List.suffix_cons ',' r1
            exact ((((ihET _ _ _ htl).trans (ihV _ _ _ hv)).trans
              (skipWs_suffix r1)).trans h1).trans (skipWs_suffix cs)
      · next r1 heq =>
        simp only [Option.some.injEq, Prod.mk.injEq] at h
        rw [← h.2]
        have h1 : r1 <:+ skipWs cs := by
          rw [heq]; exact List.suffix_cons ']' r1
        exact h1.trans (skipWs_suffix cs)
      · simp at h
    · -- parseMembers
      intro cs ms r h
      simp only [parseMembers] at h
      split at h
      · next rest =>
        simp only [Option.some.injEq, Prod.mk.injEq] at h
        rw [← h.2]
        exact List.suffix_cons '\x7d' rest
      · next rest =>
        match hk : parseStringBody fuel rest with
        | none => rw [hk] at h; simp at h
        | some (k, r1) =>
          rw [hk] at h
          simp only [] at h
          split at h
          · next r2 heq =>
            match hv : parseValue fuel (skipWs r2) with
            | none => rw [hv] at h; simp at h
            | some (v, r3) =>
              rw [hv] at h
              simp only [] at h
              match htl : parseMembersTail fuel r3 with
              | none => rw [htl] at h; simp at h
              | some (ms2, r4) =>
                rw [htl] at h
                simp only [Option.some.injEq, Prod.mk.injEq] at h
                rw [← h.2]
                have h1 : r2 <:+ skipWs r1 := by
                  rw [heq]; exact List.suffix_cons ':' r2
                exact ((((((ihMT _ _ _ htl).trans (ihV _ _ _ hv)).trans
                  (skipWs_suffix r2)).trans h1).trans
                  (skipWs_suffix r1)).trans
                  (parseStringBody_suffix fuel rest k r1 hk)).trans
                  (List.suffix_cons '"' rest)
          · simp at h
      · simp at h
    · -- parseMembersTail
      intro cs ms r h
      simp only [parseMembersTail] at h
      split at h
      · next r0 heq0 =>
        split at h
        · next rest heq1 =>
          match hk : parseStringBody fuel rest with
          | none => rw [hk] at h; simp at h
          | some (k, r1) =>
            rw [hk] at h
            simp only [] at h
            split at h
            · next r2 heq2 =>
              match hv : parseValue fuel (skipWs r2) with
              | none => rw [hv] at h; simp at h
              | some (v, r3) =>
                rw [hv] at h
                simp only [] at h
                match htl : parseMembersTail fuel r3 with
                | none => rw [htl] at h; simp at h
                | some (ms2, r4) =>
                  rw [htl] at h
                  simp only [Option.some.injEq, Prod.mk.injEq] at h
                  rw [← h.2]
                  have h1 : r2 <:+ skipWs r1 := by
                    rw [heq2]; exact List.suffix_cons ':' r2
                  have h2 : rest <:+ skipWs r0 := by
                    rw [heq1]; exact List.suffix_cons '"' rest
                  have h3 : r0 <:+ skipWs cs := by
                    rw [heq0]; exact List.suffix_cons ',' r0
                  exact ((((((((((ihMT _ _ _ htl).trans (ihV _ _ _ hv)).trans
                    (skipWs_suffix r2)).trans h1).trans
                    (skipWs_suffix r1)).trans
                    (parseStringBody_suffix fuel rest k r1 hk)).trans
                    h2).trans (skipWs_suffix r0)).trans h3).trans
                    (skipWs_suffix cs))
            · simp at h
        · simp at h
      · next r0 heq0 =>
        simp only [Option.some.injEq, Prod.mk.injEq] at h
        rw [← h.2]
        have h1 : r0 <:+ skipWs cs := by
          rw [heq0]; exact List.suffix_cons '\x7d' r0
        exact h1.trans (skipWs_suffix cs)
      · simp at h

theorem members_close (fuel : Nat) :
    (∀ cs ms r, parseMembers fuel cs = some (ms, r) →
      ∃ t, cs = t ++ '\x7d' :: r) ∧
    (∀ cs ms r, parseMembersTail fuel cs = some (ms, r) →
      ∃ t, cs = t ++ '\x7d' :: r) := by
  induction fuel with
  | zero =>
    refine ⟨?_, ?_⟩ <;> intro cs ms r h <;>
      simp [parseMembers, parseMembersTail] at h
  | succ fuel ih =>
    obtain ⟨ihM, ihMT⟩ := ih
    have ihV := (parse_suffix fuel).1
    have ihS := parseStringBody_suffix fuel
    have ihT := (parse_suffix fuel).2.2.2.2
    refine ⟨?_, ?_⟩
    · intro cs ms r h
      simp only [parseMembers] at h
      split at h
      · next rest =>
        simp only [Option.some.injEq, Prod.mk.injEq] at h
        exact ⟨[], by rw [← h.2]; rfl⟩
      · next rest =>
        match hk : parseStringBody fuel rest with
        | none => rw [hk] at h; simp at h
        | some (k, r1) =>
          rw [hk] at h
          simp only [] at h
          split at h
          · next r2 heq =>
            match hv : parseValue fuel (skipWs r2) with
            | none => rw [hv] at h; simp at h
            | some (v, r3) =>
              rw [hv] at h
              simp only [] at h
              match htl : parseMembersTail fuel r3 with
              | none => rw [htl] at h; simp at h
              | some (ms2, r4) =>
                rw [htl] at h
                simp only [Option.some.injEq, Prod.mk.injEq] at h
                have h1 : r2 <:+ skipWs r1 := by
                  rw [heq]; exact List.suffix_cons ':' r2
                have hsub : r3 <:+ '"' :: rest :=
                  (((((ihV _ _ _ hv).trans (skipWs_suffix r2)).trans h1).trans
                    (skipWs_suffix r1)).trans (ihS rest k r1 hk)).trans
                    (List.suffix_cons '"' rest)
                rw [← h.2]
                exact close_of_suffix hsub (ihMT _ _ _ htl)
          · simp at h
      · simp at h
    · intro cs ms r h
      simp only [parseMembersTail] at h
      split at h
      · next r0 heq0 =>
        split at h
        · next rest heq1 =>
          match hk : parseStringBody fuel rest with
          | none => rw [hk] at h; simp at h
          | some (k, r1) =>
            rw [hk] at h
            simp only [] at h
            split at h
            · next r2 heq2 =>
              match hv : parseValue fuel (skipWs r2) with
              | none => rw [hv] at h; simp at h
              | some (v, r3) =>
                rw [hv] at h
                simp only [] at h
                match htl : parseMembersTail fuel r3 with
                | none => rw [htl] at h; simp at h
                | some (ms2, r4) =>
                  rw [htl] at h
                  simp only [Option.some.injEq, Prod.mk.injEq] at h
                  have h1 : r2 <:+ skipWs r1 := by
                    rw [heq2]; exact List.suffix_cons ':' r2
                  have h2 : rest <:+ skipWs r0 := by
                    rw [heq1]; exact List.suffix_cons '"' rest
                  have h3 : r0 <:+ skipWs cs := by
                    rw [heq0]; exact List.suffix_cons ',' r0
                  have hsub : r3 <:+ cs :=
                    (((((((((ihV _ _ _ hv).trans (skipWs_suffix r2)).trans
                      h1).trans (skipWs_suffix r1)).trans
                      (ihS rest k r1 hk)).trans h2).trans
                      (skipWs_suffix r0)).trans h3).trans (skipWs_suffix cs))
                  rw [← h.2]
                  exact close_of_suffix hsub (ihMT _ _ _ htl)
            · simp at h
        · simp at h
      · next r0 heq0 =>
        simp only [Option.some.injEq, Prod.mk.injEq] at h
        obtain ⟨u, hu⟩ := skipWs_suffix cs
        refine ⟨u, ?_⟩
        rw [← hu, heq0, ← h.2]
      · simp at h

/-- A `parseValue` result of object shape can only come from the opening
brace branch, and its consumed input ends at a closing brace. -/
theorem parseValue_obj_shape (fuel : Nat) (cs : List Char) (ms : Obj)
    (r : List Char) (h : parseValue fuel cs = some (Json.obj ms, r)) :
    (∃ cs2, cs = '\x7b' :: cs2) ∧ ∃ t, cs = t ++ '\x7d' :: r := by
  match fuel with
  | 0 => simp [parseValue] at h
  | fuel + 1 =>
    match cs with
    | [] => simp [parseValue] at h
    | c :: rest =>
      simp only [parseValue] at h
      by_cases hc1 : c = '\x7b'
      · subst hc1
        simp only [if_true] at h
        match hm : parseMembers fuel (skipWs rest) with
        | none => rw [hm] at h; simp at h
        | some (ms2, r0) =>
          rw [hm] at h
          simp only [Option.some.injEq, Prod.mk.injEq, Json.obj.injEq] at h
          refine ⟨⟨rest, rfl⟩, ?_⟩
          obtain ⟨t, ht⟩ := (members_close fuel).1 _ _ _ hm
          obtain ⟨u, hu⟩ := skipWs_suffix rest
          refine ⟨'\x7b' :: (u ++ t), ?_⟩
          rw [← h.2]
          show '\x7b' :: rest = _
          rw [← hu, ht]
          simp
      · exfalso
        simp only [hc1, if_false] at h
        by_cases hc2 : c = '['
        · simp only [hc2, if_true] at h
          match hm : parseElems fuel (skipWs rest) with
          | none => rw [hm] at h; simp at h
          | some (vs, r0) => rw [hm] at h; simp at h
        · simp only [hc2, if_false] at h
          by_cases hc3 : c = '"'
          · simp only [hc3, if_true] at h
            match hm : parseStringBody fuel rest with
            | none => rw [hm] at h; simp at h
            | some (s0, r0) => rw [hm] at h; simp at h
          · simp only [hc3, if_false] at h
            by_cases hc4 : c = 'n'
            · simp only [hc4, if_true] at h
              by_cases ht : rest.take 3 = ['u', 'l', 'l'] <;> simp [ht] at h
            · simp only [hc4, if_false] at h
              by_cases hc5 : c = 't'
              · simp only [hc5, if_true] at h
                by_cases ht : rest.take 3 = ['r', 'u', 'e'] <;> simp [ht] at h
              · simp only [hc5, if_false] at h
                by_cases hc6 : c = 'f'
                · simp only [hc6, if_true] at h
                  by_cases ht : rest.take 4 = ['a', 'l', 's', 'e'] <;>
                    simp [ht] at h
                · simp only [hc6, if_false] at h
                  by_cases hc7 : c = '-' ∨ c.isDigit
                  · simp only [hc7, if_true] at h
                    match hm : parseNumber (c :: rest) with
                    | none => rw [hm] at h; simp at h
                    | some (lx, r0) => rw [hm] at h; simp at h
                  · simp [hc7] at h

theorem jsonIsSpace_pyIsSpace (c : Char) (h : jsonIsSpace c = true) :
    pyIsSpace c = true := by
  simp only [jsonIsSpace, Bool.or_eq_true, beq_iff_eq] at h
  rcases h with ((h | h) | h) | h <;> rw [h] <;> rfl

theorem head_dropWhile_not (p : Char → Bool) (l : List Char) (c : Char)
    (h : (l.dropWhile p).head? = some c) : p c = false := by
  induction l with
  | nil => simp [List.dropWhile] at h
  | cons a l ih =>
    by_cases hp : p a
    · rw [List.dropWhile_cons, if_pos hp] at h
      exact ih h
    · rw [List.dropWhile_cons, if_neg hp] at h
      simp only [List.head?_cons, Option.some.injEq] at h
      rw [← h]
      exact Bool.of_not_eq_true hp

theorem dropWhile_head_false (p : Char → Bool) (l : List Char)
    (h : ∀ c, l.head? = some c → p c = false) : l.dropWhile p = l := by
  cases l with
  | nil => rfl
  | cons a l =>
    rw [List.dropWhile_cons, if_neg]
    rw [h a rfl]
    simp

theorem pyStrip_head_not_space (s : List Char) (c : Char)
    (h : (pyStrip s).head? = some c) : pyIsSpace c = false :=
  head_dropWhile_not pyIsSpace (trimRight s) c h

theorem pyStrip_getLast_not_space (s : List Char) (c : Char)
    (h : (pyStrip s).getLast? = some c) : pyIsSpace c = false := by
  have hne : pyStrip s ≠ [] := by
    intro he
    rw [he] at h
    simp at h
  obtain ⟨u, hu⟩ : pyStrip s <:+ trimRight s := List.dropWhile_suffix pyIsSpace
  have h1 : (trimRight s).getLast? = some c := by
    rw [← hu, List.getLast?_append_of_ne_nil u hne]
    exact h
  have h2 : ((s.reverse.dropWhile pyIsSpace).reverse).getLast? = some c := h1
  rw [List.getLast?_reverse] at h2
  exact head_dropWhile_not pyIsSpace s.reverse c h2

theorem getLast?_all (p : Char → Bool) (l : List Char) (hne : l ≠ [])
    (hall : ∀ x ∈ l, p x = true) :
    ∃ c, l.getLast? = some c ∧ p c = true := by
  induction l with
  | nil => cases hne rfl
  | cons a l ih =>
    cases l with
    | nil => exact ⟨a, rfl, hall a (List.mem_cons_self a [])⟩
    | cons b l2 =>
      obtain ⟨c, hc, hp⟩ :=
        ih (by simp) (fun x hx => hall x (List.mem_cons_of_mem _ hx))
      exact ⟨c, by rw [List.getLast?_cons_cons]; exact hc, hp⟩

/-- A string with no surrounding Python whitespace that `json.loads` decodes
to an object must begin with an opening brace and end with a closing brace:
the pre-filter of the decoder accepts every line whose stripped text parses
as a JSON object. -/
theorem json_loads_obj_shape (l : List Char) (ms : Obj)
    (h : json_loads l = some (Json.obj ms))
    (hh : ∀ c, l.head? = some c → pyIsSpace c = false)
    (hl : ∀ c, l.getLast? = some c → pyIsSpace c = false) :
    startsWithChar l '\x7b' = true ∧ endsWithChar l '\x7d' = true := by
  have hjs : ∀ c, l.head? = some c → jsonIsSpace c = false := by
    intro c hc
    cases hj : jsonIsSpace c
    · rfl
    · have hp := jsonIsSpace_pyIsSpace c hj
      rw [hh c hc] at hp
      cases hp
  have hskip : skipWs l = l := dropWhile_head_false jsonIsSpace l hjs
  simp only [json_loads, hskip] at h
  match hv : parseValue (l.length + 1) l with
  | none => rw [hv] at h; simp at h
  | some (v, rest) =>
    rw [hv] at h
    simp only [] at h
    by_cases hr : skipWs rest = []
    · rw [if_pos hr] at h
      simp only [Option.some.injEq] at h
      subst h
      obtain ⟨⟨cs2, hcs2⟩, ⟨t, ht⟩⟩ := parseValue_obj_shape _ l ms rest hv
      constructor
      · rw [hcs2]
        rfl
      · have hall : ∀ x ∈ rest, jsonIsSpace x = true :=
          List.dropWhile_eq_nil_iff.mp hr
        cases hrest : rest with
        | nil =>
          rw [ht, hrest]
          simp only [endsWithChar]
          rw [List.getLast?_append_of_ne_nil t (by simp)]
          rfl
        | cons r0 rs =>
          exfalso
          obtain ⟨c, hc, hcp⟩ :=
            getLast?_all jsonIsSpace rest (by rw [hrest]; simp) hall
          have hgl : l.getLast? = some c := by
            rw [ht, List.getLast?_append_of_ne_nil t (by simp), hrest,
              List.getLast?_cons_cons, ← hrest]
            exact hc
          have hfin := hl c hgl
          rw [jsonIsSpace_pyIsSpace c hcp] at hfin
          simp at hfin
    · rw [if_neg hr] at h
      simp at h

/-- A line whose stripped text parses as a JSON object passes the decoder's
pre-filter, so the decoder's outcome is exactly the dish construction's. -/
theorem decodeLine_parse (line : List Char) (kvs : Obj)
    (h : json_loads (pyStrip line) = some (Json.obj kvs)) :
    decodeLine line = (buildDish kvs).map Option.some := by
  have hsw := json_loads_obj_shape (pyStrip line) kvs h
    (fun c hc => pyStrip_head_not_space line c hc)
    (fun c hc => pyStrip_getLast_not_space line c hc)
  have hne : ¬ pyStrip line = [] := by
    intro he
    rw [he] at hsw
    simp [startsWithChar] at hsw
  simp only [decodeLine]
  rw [if_neg hne, if_neg (by rw [hsw.1]; simp), if_neg (by rw [hsw.2]; simp), h]
  simp only []
  cases hbd : buildDish kvs <;> simp [hbd, Except.map]

theorem buildDish_of_sectionOk (kvs : Obj) (h : sectionOk kvs = true) :
    ∃ s, pyOrEmptyStr (pyGet kvs kSection) = Json.str s ∧
      buildDish kvs = Except.ok
        [(kName, (pyGet kvs kNameEn).getD (Json.str [])),
         (kTranslation, (pyGet kvs kNameZh).getD (Json.str [])),
         (kCategory, Json.str (pyReplaceSpace (s.map pyLowerChar))),
         (kCategoryTranslation, (pyGet kvs kSection).getD (Json.str [])),
         (kMenuDescription, pyOrNone (pyGet kvs kDescriptionEn)),
         (kTranslationDescription, pyOrNone (pyGet kvs kDescriptionZh))] := by
  unfold sectionOk at h
  match hm : pyOrEmptyStr (pyGet kvs kSection) with
  | Json.str s =>
    refine ⟨s, rfl, ?_⟩
    unfold buildDish
    rw [hm]
    rfl
  | Json.null => rw [hm] at h; simp at h
  | Json.bool b => rw [hm] at h; simp at h
  | Json.num lx => rw [hm] at h; simp at h
  | Json.arr xs => rw [hm] at h; simp at h
  | Json.obj ms => rw [hm] at h; simp at h

theorem buildDish_error_of_not_sectionOk (kvs : Obj) (h : sectionOk kvs = false) :
    buildDish kvs = Except.error () := by
  unfold sectionOk at h
  unfold buildDish
  match hm : pyOrEmptyStr (pyGet kvs kSection) with
  | Json.str s => rw [hm] at h; simp at h
  | Json.null => rfl
  | Json.bool b => rfl
  | Json.num lx => rfl
  | Json.arr xs => rfl
  | Json.obj ms => rfl

/-- C2: end-to-end scenario A.  Feeding the stream pipeline the four text
fragments of the scenario, with a clean end of stream, yields exactly two
dish records, in order: first the one whose `name` field (mapped from
`name_en`) is "Margherita Pizza", then the one whose `name` field is
"Caesar Salad"; the generator does not raise. -/
theorem scenario_a_two_records :
    runStream [] [fragA1, fragA2, fragA3, fragA4] false =
      ([dishMargherita, dishCaesar], false) ∧
    pyGet dishMargherita kName = some (Json.str ("Margherita Pizza".toList)) ∧
    pyGet dishCaesar kName = some (Json.str ("Caesar Salad".toList)) :=
  ⟨rfl, rfl, rfl⟩

/-- C3: the record decoder never rejects with an exception on a malformed
line.  Every line that is empty after stripping, or does not start with an
opening brace, or does not end with a closing brace (all rejected before any
parse), or whose stripped text fails `json.loads`, decodes to "no record",
and processing of the remaining lines continues unchanged — such a line can
never abort the stream or surface an error event. -/
theorem malformed_line_no_record (line : List Char) (rest : List (List Char))
    (h : pyStrip line = [] ∨ startsWithChar (pyStrip line) '\x7b' = false ∨
      endsWithChar (pyStrip line) '\x7d' = false ∨
      json_loads (pyStrip line) = none) :
    decodeLine line = Except.ok none ∧
      processLines (line :: rest) = processLines rest := by
  have hd : decodeLine line = Except.ok none := by
    simp only [decodeLine]
    by_cases h1 : pyStrip line = []
    · rw [if_pos h1]
    · rw [if_neg h1]
      by_cases h2 : startsWithChar (pyStrip line) '\x7b' = false
      · rw [if_pos h2]
      · rw [if_neg h2]
        by_cases h3 : endsWithChar (pyStrip line) '\x7d' = false
        · rw [if_pos h3]
        · rw [if_neg h3]
          have h4 : json_loads (pyStrip line) = none := by
            rcases h with h | h | h | h
            · exact absurd h h1
            · exact absurd h h2
            · exact absurd h h3
            · exact h
          rw [h4]
  refine ⟨hd, ?_⟩
  simp only [processLines, hd]

theorem malformed_line_no_record_w :
    (decodeLine ("not json".toList) = Except.ok none ∧
      processLines (("not json".toList) :: []) = processLines []) ∧
    (decodeLine ("\x7b\"name\": \x7d".toList) = Except.ok none ∧
      processLines (("\x7b\"name\": \x7d".toList) :: []) = processLines []) ∧
    (decodeLine ("\x7b\"a\":1".toList) = Except.ok none ∧
      processLines (("\x7b\"a\":1".toList) :: []) = processLines []) :=
  ⟨malformed_line_no_record _ [] (Or.inr (Or.inl rfl)),
   malformed_line_no_record _ [] (Or.inr (Or.inr (Or.inr rfl))),
   malformed_line_no_record _ [] (Or.inr (Or.inr (Or.inl rfl)))⟩

/-- C4 counterexample: the line consisting of an object whose `section`
value is the nonempty list `[1]` parses as a JSON object, yet the decoder
does not return a record for it: `(data.get("section") or "").lower()`
raises `AttributeError`, which escapes the decode (aborting the stream), so
it is not the case that every line parsing as a JSON object yields a
six-key record. -/
theorem uniform_shape_counterexample :
    json_loads (pyStrip lineSectionArr) =
      some (Json.obj [("section".toList, Json.arr [Json.num ("1".toList)])]) ∧
    decodeLine lineSectionArr = Except.error () :=
  ⟨rfl, rfl⟩

/-- C4 (amended): for every line that parses as a JSON object whose
`section` value, after Python's `or ""`, is a string (that is: `section` is
absent, falsy, or itself a string — otherwise the decoder raises, see the
counterexample), the decoder returns a record carrying exactly the six
canonical keys in order; a missing `name_en`/`name_zh` yields the empty
string for `name`/`translation`, a missing `section` yields the empty string
for `category` and `category_translation`, and a missing `description_en`/
`description_zh` yields null for `menu_description`/
`translation_description`. -/
theorem uniform_shape_amended (line : List Char) (kvs : Obj)
    (hparse : json_loads (pyStrip line) = some (Json.obj kvs))
    (hsec : sectionOk kvs = true) :
    ∃ d, decodeLine line = Except.ok (some d) ∧
      d.map Prod.fst = dishKeys ∧
      (pyGet kvs kNameEn = none → pyGet d kName = some (Json.str [])) ∧
      (pyGet kvs kNameZh = none → pyGet d kTranslation = some (Json.str [])) ∧
      (pyGet kvs kSection = none →
        pyGet d kCategory = some (Json.str []) ∧
        pyGet d kCategoryTranslation = some (Json.str [])) ∧
      (pyGet kvs kDescriptionEn = none →
        pyGet d kMenuDescription = some Json.null) ∧
      (pyGet kvs kDescriptionZh = none →
        pyGet d kTranslationDescription = some Json.null) := by
  obtain ⟨s, hs, hbuild⟩ := buildDish_of_sectionOk kvs hsec
  have hdec := decodeLine_parse line kvs hparse
  rw [hbuild] at hdec
  refine ⟨[(kName, (pyGet kvs kNameEn).getD (Json.str [])),
     (kTranslation, (pyGet kvs kNameZh).getD (Json.str [])),
     (kCategory, Json.str (pyReplaceSpace (s.map pyLowerChar))),
     (kCategoryTranslation, (pyGet kvs kSection).getD (Json.str [])),
     (kMenuDescription, pyOrNone (pyGet kvs kDescriptionEn)),
     (kTranslationDescription, pyOrNone (pyGet kvs kDescriptionZh))],
    hdec, rfl, ?_, ?_, ?_, ?_, ?_⟩
  · intro h
    show some ((pyGet kvs kNameEn).getD (Json.str [])) = some (Json.str [])
    rw [h]
    rfl
  · intro h
    show some ((pyGet kvs kNameZh).getD (Json.str [])) = some (Json.str [])
    rw [h]
    rfl
  · intro h
    rw [h] at hs
    have hse : Json.str [] = Json.str s := hs
    have hs0 : s = [] := by
      cases hse
      rfl
    subst hs0
    constructor
    · show some (Json.str (pyReplaceSpace (List.map pyLowerChar []))) = _
      rfl
    · show some ((pyGet kvs kSection).getD (Json.str [])) = some (Json.str [])
      rw [h]
      rfl
  · intro h
    show some (pyOrNone (pyGet kvs kDescriptionEn)) = some Json.null
    rw [h]
    rfl
  · intro h
    show some (pyOrNone (pyGet kvs kDescriptionZh)) = some Json.null
    rw [h]
    rfl

theorem uniform_shape_amended_w :
    ∃ d, decodeLine ("\x7b\x7d".toList) = Except.ok (some d) ∧
      d.map Prod.fst = dishKeys ∧
      (pyGet ([] : Obj) kNameEn = none → pyGet d kName = some (Json.str [])) ∧
      (pyGet ([] : Obj) kNameZh = none →
        pyGet d kTranslation = some (Json.str [])) ∧
      (pyGet ([] : Obj) kSection = none →
        pyGet d kCategory = some (Json.str []) ∧
        pyGet d kCategoryTranslation = some (Json.str [])) ∧
      (pyGet ([] : Obj) kDescriptionEn = none →
        pyGet d kMenuDescription = some Json.null) ∧
      (pyGet ([] : Obj) kDescriptionZh = none →
        pyGet d kTranslationDescription = some Json.null) :=
  uniform_shape_amended ("\x7b\x7d".toList) [] rfl rfl

/-- C5 counterexample: at stream end with the residual buffer holding an
object whose `section` value is the nonempty list `[1]`, the buffer is
shape-valid (starts with an opening brace, ends with a closing brace) and
parses as JSON, yet no final record is emitted: the dish construction raises
and the bare `except: pass` of the flush swallows it, so "emitted exactly
when shape-valid and parses as JSON" is false. -/
theorem flush_shape_counterexample :
    startsWithChar (pyStrip lineSectionArr) '\x7b' = true ∧
    endsWithChar (pyStrip lineSectionArr) '\x7d' = true ∧
    json_loads (pyStrip lineSectionArr) =
      some (Json.obj [("section".toList, Json.arr [Json.num ("1".toList)])]) ∧
    flushBuffer lineSectionArr = none ∧
    runStream [] [lineSectionArr] false = ([], false) :=
  ⟨rfl, rfl, rfl, rfl, rfl⟩

/-- C5 (amended): the end-of-stream flush emits a final record exactly when
the stripped residual buffer starts with an opening brace, ends with a
closing brace, parses as a JSON object, and the record construction
succeeds (its `section` value, after `or ""`, is a string); in particular a
remainder without the closing brace is silently discarded. -/
theorem flush_emits_record_iff (buffer : List Char) :
    (∃ d, flushBuffer buffer = some d) ↔
      (startsWithChar (pyStrip buffer) '\x7b' = true ∧
       endsWithChar (pyStrip buffer) '\x7d' = true ∧
       ∃ kvs, json_loads (pyStrip buffer) = some (Json.obj kvs) ∧
         sectionOk kvs = true) := by
  constructor
  · rintro ⟨d, hd⟩
    simp only [flushBuffer] at hd
    by_cases hshape : startsWithChar (pyStrip buffer) '\x7b' = true ∧
        endsWithChar (pyStrip buffer) '\x7d' = true
    · rw [if_pos hshape] at hd
      match hj : json_loads (pyStrip buffer) with
      | none => rw [hj] at hd; simp at hd
      | some Json.null => rw [hj] at hd; simp at hd
      | some (Json.bool b) => rw [hj] at hd; simp at hd
      | some (Json.num lx) => rw [hj] at hd; simp at hd
      | some (Json.str s) => rw [hj] at hd; simp at hd
      | some (Json.arr xs) => rw [hj] at hd; simp at hd
      | some (Json.obj kvs) =>
        rw [hj] at hd
        simp only [] at hd
        cases hsec : sectionOk kvs
        · rw [buildDish_error_of_not_sectionOk kvs hsec] at hd
          simp at hd
        · exact ⟨hshape.1, hshape.2, kvs, rfl, hsec⟩
    · rw [if_neg hshape] at hd
      cases hd
  · rintro ⟨h1, h2, kvs, hj, hsec⟩
    obtain ⟨s, hs, hbuild⟩ := buildDish_of_sectionOk kvs hsec
    refine ⟨[(kName, (pyGet kvs kNameEn).getD (Json.str [])),
       (kTranslation, (pyGet kvs kNameZh).getD (Json.str [])),
       (kCategory, Json.str (pyReplaceSpace (s.map pyLowerChar))),
       (kCategoryTranslation, (pyGet kvs kSection).getD (Json.str [])),
       (kMenuDescription, pyOrNone (pyGet kvs kDescriptionEn)),
       (kTranslationDescription, pyOrNone (pyGet kvs kDescriptionZh))], ?_⟩
    simp only [flushBuffer]
    rw [if_pos ⟨h1, h2⟩, hj]
    simp only []
    rw [hbuild]

/-- C6: terminal-event invariant of the `/api/analyze-menu` handler.  Every
event sequence it produces ends with exactly one terminal event (an error
frame or the done frame): the terminal event is the last element, no event
before it is terminal, and nothing follows it. -/
theorem analyze_menu_terminal_invariant (size : Nat) (chunks : List (List Char))
    (exnEnd : Bool) :
    ∃ pre t, analyze_menu size chunks exnEnd = pre ++ [t] ∧
      isTerminal t = true ∧ ∀ e ∈ pre, isTerminal e = false := by
  unfold analyze_menu
  by_cases hs : size > 10 * 1024 * 1024
  · rw [if_pos hs]
    exact ⟨[], Event.errorEv, rfl, rfl, by simp⟩
  · rw [if_neg hs]
    rcases hrs : runStream [] chunks exnEnd with ⟨ds, raised⟩
    simp only [hrs]
    refine ⟨ds.map Event.record,
      if raised then Event.errorEv else Event.doneEv, rfl, ?_, ?_⟩
    · cases raised <;> rfl
    · intro e he
      simp only [List.mem_map] at he
      obtain ⟨d, -, rfl⟩ := he
      rfl

/-- C7: end-to-end scenario B.  When the upstream stream delivers one chunk
holding one valid record line and then fails (the background producer puts
the captured exception on the queue after the chunk, and the consumer
re-raises it), the client observes exactly one record frame followed by
exactly one error frame, and no done frame. -/
theorem scenario_b_record_then_error :
    analyze_menu 4 [fragB] true =
      [Event.record dishCaesarOnly, Event.errorEv] := rfl

/-- C8 counterexample: when phase 1 of the two-step extraction yields empty
content, `analyze_menu_image` returns the empty dish list as a normal
(non-error) result and does not run phase 2 — it does not transition to an
error state with a descriptive message as the claim states. -/
theorem empty_phase1_counterexample :
    analyze_menu_image (some []) none = (Except.ok (Json.arr []), false) := rfl

/-- C8 (amended): when phase 1 of the two-step extraction yields no content
(no choices, `None`, or the empty string), `analyze_menu_image` returns the
empty list without error and without running phase 2; but when phase 1
yields whitespace-only non-empty content, phase 2 still runs (the empty
stripped intermediate text is not treated as fatal — no error state
exists for it). -/
theorem empty_phase1_behavior (s2 : Option (List Char)) (c : List Char)
    (hc : c ≠ []) (_hws : ∀ x ∈ c, pyIsSpace x = true) :
    analyze_menu_image none s2 = (Except.ok (Json.arr []), false) ∧
    analyze_menu_image (some []) s2 = (Except.ok (Json.arr []), false) ∧
    (analyze_menu_image (some c) s2).2 = true := by
  refine ⟨rfl, rfl, ?_⟩
  simp only [analyze_menu_image]
  rw [if_neg hc]
  match s2 with
  | none => rfl
  | some c2 =>
    simp only []
    by_cases h2 : c2 = []
    · rw [if_pos h2]
    · rw [if_neg h2]
      match json_loads ((braceSlice (pyStrip c2)).getD (pyStrip c2)) with
      | none => rfl
      | some Json.null => rfl
      | some (Json.bool b) => rfl
      | some (Json.num lx) => rfl
      | some (Json.str s) => rfl
      | some (Json.arr xs) => rfl
      | some (Json.obj kvs) =>
        simp only []
        match pyGet kvs ("dishes".toList) with
        | none => rfl
        | some d =>
          simp only []
          by_cases hlen : pyLenOk d = true
          · rw [if_pos hlen]
          · rw [if_neg hlen]

theorem empty_phase1_behavior_w :
    analyze_menu_image none none = (Except.ok (Json.arr []), false) ∧
    analyze_menu_image (some []) none = (Except.ok (Json.arr []), false) ∧
    (analyze_menu_image (some (" ".toList)) none).2 = true :=
  empty_phase1_behavior none (" ".toList) (by decide) (by decide)

/-- C9: oversized-upload rejection.  For every request body strictly larger
than 10 MiB, the handler produces exactly one error frame — no record frame
and no done frame — and the outcome is the same whatever the upstream
stream would have produced, so no upstream call is observable. -/
theorem oversized_upload_rejected (size : Nat) (chunks : List (List Char))
    (exnEnd : Bool) (h : size > 10 * 1024 * 1024) :
    analyze_menu size chunks exnEnd = [Event.errorEv] := by
  unfold analyze_menu
  rw [if_pos h]

theorem oversized_upload_rejected_w :
    10 * 1024 * 1024 + 1 > 10 * 1024 * 1024 ∧
    analyze_menu (10 * 1024 * 1024 + 1) [fragB] false = [Event.errorEv] :=
  ⟨by decide, oversized_upload_rejected (10 * 1024 * 1024 + 1) [fragB] false
    (by decide)⟩

/-- C10: present-but-falsy description fields are coerced to null.  For
every line that parses as a JSON object and decodes to a record, if
`description_en` (resp. `description_zh`) is present with a falsy value —
in particular the empty string — the record's `menu_description` (resp.
`translation_description`) is null, not that value: `x or None` applies the
null default whenever the value is falsy, not only when the key is
missing. -/
theorem empty_description_null (line : List Char) (kvs : Obj) (d : Obj)
    (hparse : json_loads (pyStrip line) = some (Json.obj kvs))
    (hbuild : buildDish kvs = Except.ok d) :
    decodeLine line = Except.ok (some d) ∧
    (∀ v, pyGet kvs kDescriptionEn = some v → truthy v = false →
      pyGet d kMenuDescription = some Json.null) ∧
    (∀ v, pyGet kvs kDescriptionZh = some v → truthy v = false →
      pyGet d kTranslationDescription = some Json.null) := by
  have hdec := decodeLine_parse line kvs hparse
  rw [hbuild] at hdec
  have hsec : sectionOk kvs = true := by
    cases hb : sectionOk kvs
    · rw [buildDish_error_of_not_sectionOk kvs hb] at hbuild
      cases hbuild
    · rfl
  obtain ⟨s, hs, hbuild2⟩ := buildDish_of_sectionOk kvs hsec
  rw [hbuild2] at hbuild
  simp only [Except.ok.injEq] at hbuild
  subst hbuild
  refine ⟨hdec, ?_, ?_⟩
  · intro v hv ht
    show some (pyOrNone (pyGet kvs kDescriptionEn)) = some Json.null
    rw [hv]
    simp [pyOrNone, ht]
  · intro v hv ht
    show some (pyOrNone (pyGet kvs kDescriptionZh)) = some Json.null
    rw [hv]
    simp [pyOrNone, ht]

theorem empty_description_null_w :
    decodeLine lineEmptyDescs = Except.ok (some dishEmptyDescs) ∧
    pyGet dishEmptyDescs kMenuDescription = some Json.null ∧
    pyGet dishEmptyDescs kTranslationDescription = some Json.null :=
  ⟨(empty_description_null lineEmptyDescs kvsEmptyDescs dishEmptyDescs
      rfl rfl).1,
   (empty_description_null lineEmptyDescs kvsEmptyDescs dishEmptyDescs
      rfl rfl).2.1 (Json.str []) rfl rfl,
   (empty_description_null lineEmptyDescs kvsEmptyDescs dishEmptyDescs
      rfl rfl).2.2 (Json.str []) rfl rfl⟩
